import Mathlib

/-!
Verification of the HPKE core (`src/lib.rs`): PSK-input validation, the
labeled key schedule, and the stateful encryption context.

Modelling conventions:
* byte strings are `List Nat` (each entry a byte value);
* the `u32` sequence counter is a `Nat`, with the code's `u32` addition
  taken modulo `4294967296 = 2 ^ 32` where it can overflow;
* the KDF and AEAD collaborators live in modules outside the core file;
  following their capability sets they are passed as records of
  functions (`labeled_extract`, `labeled_expand`, `seal`, `open_`, and
  the size constants `nh`, `nk`, `nn`);
* code that aborts (a failed validation, a failed AEAD authentication,
  an arithmetic underflow) is modelled with `Except HpkeError`.
-/

/-- Error taxonomy of the spec; `ArithmeticOverflow` models an abort
from unchecked machine arithmetic in the code. -/
inductive HpkeError where
  | ConfigurationError
  | ModeMismatch
  | AuthenticationError
  | SequenceExhausted
  | ArithmeticOverflow
deriving DecidableEq, Repr

/-- `Mode` from `src/lib.rs`. -/
inductive Mode where
  | Base
  | Psk
  | Auth
  | AuthPsk
deriving DecidableEq, Repr

/-- The discriminant of `Mode` (`Base = 0x00`, `Psk = 0x01`,
`Auth = 0x02`, `AuthPsk = 0x03`), used as the mode byte (`mode as u8`). -/
def Mode.toByte : Mode → Nat
  | .Base => 0
  | .Psk => 1
  | .Auth => 2
  | .AuthPsk => 3

/-- `Context` from `src/lib.rs`: the live encryption context. -/
structure Context where
  key : List Nat
  nonce : List Nat
  exporter_secret : List Nat
  sequence_number : Nat
deriving DecidableEq, Repr

/-- `Context::default()` (`#[derive(Default)]`): empty byte vectors and
sequence number `0`. -/
def Context.default : Context :=
  { key := [], nonce := [], exporter_secret := [], sequence_number := 0 }

/-- The KDF collaborator's capability set (`kdf::Kdf`). -/
structure Kdf where
  labeled_extract : List Nat → String → List Nat → List Nat
  labeled_expand : List Nat → String → List Nat → Nat → List Nat
  nh : Nat

/-- The AEAD collaborator's capability set (`aead::Aead`); `open_`
returns `none` on an authentication failure. -/
structure Aead where
  «seal» : List Nat → List Nat → List Nat → List Nat → List Nat
  open_ : List Nat → List Nat → List Nat → List Nat → Option (List Nat)
  nk : Nat
  nn : Nat

/-- `Hpke` from `src/lib.rs`.  The KEM collaborator is omitted: it is
used only by `setup_base_sender` / `setup_base_receiver`, which no
theorem below touches; its numeric identifier `kem_id` is kept. -/
structure Hpke where
  mode : Mode
  kem_id : Nat
  kdf_id : Nat
  aead_id : Nat
  kdf : Kdf
  aead : Aead
  nk : Nat
  nn : Nat
  nh : Nat
  ctx : Context

/-- Modelled from the spec: `util::xor_bytes` is not in the visible
core file; the spec's nonce masking XORs the encoded counter with the
stored nonce base bytewise. -/
def xor_bytes (a b : List Nat) : List Nat :=
  List.zipWith Nat.xor a b

/-- `u32::to_be_bytes`: the four big-endian bytes of a `u32` value. -/
def u32_to_be_bytes (s : Nat) : List Nat :=
  [s / 16777216 % 256, s / 65536 % 256, s / 256 % 256, s % 256]

/-- `u16::to_be_bytes`: the two big-endian bytes of a `u16` value. -/
def u16_to_be_bytes (x : Nat) : List Nat :=
  [x / 256 % 256, x % 256]

/-- `Hpke::new`: stores the mode, identifiers and collaborators, reads
the size constants off the collaborators, and starts from the default
(empty) context. -/
def Hpke.new (mode : Mode) (kem_id kdf_id aead_id : Nat)
    (kdf : Kdf) (aead : Aead) : Hpke :=
  { mode := mode, kem_id := kem_id, kdf_id := kdf_id, aead_id := aead_id,
    kdf := kdf, aead := aead,
    nk := aead.nk, nn := aead.nn, nh := kdf.nh,
    ctx := Context.default }

/-- `Hpke::compute_nonce`: the counter `seq` is encoded on exactly four
big-endian bytes, prefixed by `nn - 4` zero bytes, and XORed with the
stored nonce base.  When `nn < 4` the length subtraction
`self.nn - seq.len()` underflows and the code aborts. -/
def Hpke.compute_nonce (h : Hpke) (seq : Nat) : Except HpkeError (List Nat) :=
  if h.nn < 4 then Except.error HpkeError.ArithmeticOverflow
  else Except.ok (xor_bytes (List.replicate (h.nn - 4) 0 ++ u32_to_be_bytes seq) h.ctx.nonce)

/-- `Hpke::increment_seq`: `self.ctx.sequence_number += 1` on a `u32`,
hence addition modulo `2 ^ 32`. -/
def Hpke.increment_seq (h : Hpke) : Hpke :=
  { h with ctx := { h.ctx with
      sequence_number := (h.ctx.sequence_number + 1) % 4294967296 } }

/-- `Hpke::seal`: AEAD-seal under the context key and the nonce for the
current sequence number, then increment the sequence number. -/
def Hpke.seal (h : Hpke) (aad plain_txt : List Nat) :
    Except HpkeError (List Nat × Hpke) :=
  match h.compute_nonce h.ctx.sequence_number with
  | Except.error e => Except.error e
  | Except.ok nonce =>
      Except.ok (h.aead.seal h.ctx.key nonce aad plain_txt, h.increment_seq)

/-- `Hpke::open`: AEAD-open under the context key and the nonce for the
current sequence number; on success increment the sequence number and
return the plaintext, on authentication failure abort
(`AuthenticationError`). -/
def Hpke.open_ (h : Hpke) (aad cipher_txt : List Nat) :
    Except HpkeError (List Nat × Hpke) :=
  match h.compute_nonce h.ctx.sequence_number with
  | Except.error e => Except.error e
  | Except.ok nonce =>
      match h.aead.open_ h.ctx.key nonce aad cipher_txt with
      | some plain_txt => Except.ok (plain_txt, h.increment_seq)
      | none => Except.error HpkeError.AuthenticationError

/-- `Hpke::verify_psk_inputs`: the PSK/mode consistency check; every
failing branch aborts with a configuration error. -/
def Hpke.verify_psk_inputs (h : Hpke) (psk psk_id : List Nat) :
    Except HpkeError Unit :=
  let got_psk := !psk.isEmpty
  let got_psk_id := !psk_id.isEmpty
  if (got_psk && !got_psk_id) || (!got_psk && got_psk_id) then
    Except.error HpkeError.ConfigurationError
  else if got_psk && (h.mode == Mode.Base || h.mode == Mode.Auth) then
    Except.error HpkeError.ConfigurationError
  else if !got_psk && (h.mode == Mode.Psk || h.mode == Mode.AuthPsk) then
    Except.error HpkeError.ConfigurationError
  else
    Except.ok ()

/-- `Hpke::get_ciphersuite`: big-endian 16-bit KEM id, KDF id and AEAD
id, concatenated. -/
def Hpke.get_ciphersuite (h : Hpke) : List Nat :=
  u16_to_be_bytes h.kem_id ++ u16_to_be_bytes h.kdf_id ++ u16_to_be_bytes h.aead_id

/-- `Hpke::get_key_schedule_context`. -/
def Hpke.get_key_schedule_context (h : Hpke) (info psk_id : List Nat) : List Nat :=
  let ciphersuite := h.get_ciphersuite
  let psk_id_hash := h.kdf.labeled_extract [0] "pskID_hash" psk_id
  let info_hash := h.kdf.labeled_extract [0] "info_hash" info
  ciphersuite ++ [h.mode.toByte] ++ psk_id_hash ++ info_hash

/-- `Hpke::get_secret`: an empty PSK is replaced by `nh` zero bytes
(`nh` read from the KDF collaborator), then extract twice. -/
def Hpke.get_secret (h : Hpke) (psk zz : List Nat) : List Nat :=
  let psk' := if psk.isEmpty then List.replicate h.kdf.nh 0 else psk
  let psk_hash := h.kdf.labeled_extract (List.replicate h.kdf.nh 0) "psk_hash" psk'
  h.kdf.labeled_extract psk_hash "secret" zz

/-- `Hpke::key_schedule`: validate the PSK inputs, derive the schedule
context and secret, expand key / nonce base / exporter secret, and
install a fresh context with sequence number `0`. -/
def Hpke.key_schedule (h : Hpke) (zz info psk psk_id : List Nat) :
    Except HpkeError Hpke :=
  match h.verify_psk_inputs psk psk_id with
  | Except.error e => Except.error e
  | Except.ok _ =>
    let key_schedule_context := h.get_key_schedule_context info psk_id
    let secret := h.get_secret psk zz
    let key := h.kdf.labeled_expand secret "key" key_schedule_context h.nk
    let nonce := h.kdf.labeled_expand secret "nonce" key_schedule_context h.nn
    let exporter_secret := h.kdf.labeled_expand secret "exp" key_schedule_context h.nh
    Except.ok { h with ctx :=
      { key := key, nonce := nonce, exporter_secret := exporter_secret,
        sequence_number := 0 } }

/-- Sealing a list of `(aad, plaintext)` pairs in order, threading the
context. -/
def Hpke.seal_all (h : Hpke) :
    List (List Nat × List Nat) → Except HpkeError (List (List Nat) × Hpke)
  | [] => Except.ok ([], h)
  | (aad, pt) :: rest =>
    match h.seal aad pt with
    | Except.error e => Except.error e
    | Except.ok (ct, h') =>
      match h'.seal_all rest with
      | Except.error e => Except.error e
      | Except.ok (cts, h'') => Except.ok (ct :: cts, h'')

/-- Opening a list of `(aad, ciphertext)` pairs in order, threading the
context. -/
def Hpke.open_all (h : Hpke) :
    List (List Nat × List Nat) → Except HpkeError (List (List Nat) × Hpke)
  | [] => Except.ok ([], h)
  | (aad, ct) :: rest =>
    match h.open_ aad ct with
    | Except.error e => Except.error e
    | Except.ok (pt, h') =>
      match h'.open_all rest with
      | Except.error e => Except.error e
      | Except.ok (pts, h'') => Except.ok (pt :: pts, h'')

/-- `n` successive sequence-number increments. -/
def Hpke.advance (h : Hpke) : Nat → Hpke
  | 0 => h
  | n + 1 => h.increment_seq.advance n

/-- Big-endian, left-zero-padded encoding of `s` on `w` bytes, written
from the spec's words, to be compared with the code's fixed four-byte
counter encoding. -/
def nat_to_be_bytes (w : Nat) (s : Nat) : List Nat :=
  match w with
  | 0 => []
  | w + 1 => nat_to_be_bytes w (s / 256) ++ [s % 256]

/-! ### Helper lemmas about the byte encodings -/

lemma nat_to_be_bytes_length : ∀ (w s : Nat), (nat_to_be_bytes w s).length = w := by
  intro w
  induction w with
  | zero => intro s; rfl
  | succ w ih => intro s; simp [nat_to_be_bytes, ih]

lemma nat_to_be_bytes_lead_zero : ∀ (w t : Nat), t < 2 ^ (8 * w) →
    nat_to_be_bytes (w + 1) t = 0 :: nat_to_be_bytes w t := by
  intro w
  induction w with
  | zero =>
    intro t ht
    have ht0 : t = 0 := by simpa using ht
    subst ht0; rfl
  | succ w ih =>
    intro t ht
    have hdiv : t / 256 < 2 ^ (8 * w) := by
      have hp : 2 ^ (8 * (w + 1)) = 2 ^ (8 * w) * 256 := by
        rw [show 8 * (w + 1) = 8 * w + 8 by omega, pow_add]; norm_num
      rw [Nat.div_lt_iff_lt_mul (by norm_num : (0 : Nat) < 256)]
      calc t < 2 ^ (8 * (w + 1)) := ht
        _ = 2 ^ (8 * w) * 256 := hp
    show nat_to_be_bytes (w + 1) (t / 256) ++ [t % 256] = _
    rw [ih (t / 256) hdiv]
    rfl

lemma nat_to_be_bytes_pad : ∀ (m s : Nat), s < 4294967296 →
    nat_to_be_bytes (4 + m) s = List.replicate m 0 ++ nat_to_be_bytes 4 s := by
  intro m
  induction m with
  | zero => intro s _; rfl
  | succ m ih =>
    intro s hs
    have hb : s < 2 ^ (8 * (4 + m)) := by
      calc s < 4294967296 := hs
        _ = 2 ^ (8 * 4) := by norm_num
        _ ≤ 2 ^ (8 * (4 + m)) := Nat.pow_le_pow_right (by norm_num) (by omega)
    have hstep := nat_to_be_bytes_lead_zero (4 + m) s hb
    rw [show 4 + (m + 1) = (4 + m) + 1 by omega, hstep, ih s hs]
    rfl

lemma nat_to_be_bytes_four (s : Nat) : nat_to_be_bytes 4 s = u32_to_be_bytes s := by
  show [s / 256 / 256 / 256 % 256, s / 256 / 256 % 256, s / 256 % 256, s % 256] = _
  simp [u32_to_be_bytes, Nat.div_div_eq_div_mul]

lemma u32_to_be_bytes_inj (i j : Nat) (hi : i < 4294967296) (hj : j < 4294967296)
    (h : u32_to_be_bytes i = u32_to_be_bytes j) : i = j := by
  simp only [u32_to_be_bytes, List.cons.injEq, and_true] at h
  omega

lemma xor_bytes_cancel : ∀ (a b : List Nat), a.length = b.length →
    xor_bytes (xor_bytes a b) b = a := by
  intro a
  induction a with
  | nil => intro b h; cases b <;> simp_all [xor_bytes]
  | cons x xs ih =>
    intro b h
    cases b with
    | nil => simp at h
    | cons y ys =>
      have hx : Nat.xor (Nat.xor x y) y = x := by
        show (x ^^^ y) ^^^ y = x
        rw [Nat.xor_assoc, Nat.xor_self, Nat.xor_zero]
      simp only [xor_bytes, List.zipWith] at *
      rw [hx, ih ys (by simpa using h)]

/-! ### Helper lemmas about the threaded context state -/

lemma increment_seq_fields (h : Hpke) :
    h.increment_seq.aead = h.aead ∧ h.increment_seq.kdf = h.kdf ∧
    h.increment_seq.nn = h.nn ∧ h.increment_seq.ctx.key = h.ctx.key ∧
    h.increment_seq.ctx.nonce = h.ctx.nonce ∧
    h.increment_seq.ctx.sequence_number = (h.ctx.sequence_number + 1) % 4294967296 :=
  ⟨rfl, rfl, rfl, rfl, rfl, rfl⟩

lemma advance_seq : ∀ (n : Nat) (h : Hpke),
    h.ctx.sequence_number < 4294967296 →
    (h.advance n).ctx.sequence_number = (h.ctx.sequence_number + n) % 4294967296 := by
  intro n
  induction n with
  | zero =>
    intro h hlt
    show h.ctx.sequence_number = _
    omega
  | succ n ih =>
    intro h hlt
    have h2 : h.increment_seq.ctx.sequence_number < 4294967296 := by
      show (h.ctx.sequence_number + 1) % 4294967296 < 4294967296
      omega
    have hr := ih h.increment_seq h2
    show (h.increment_seq.advance n).ctx.sequence_number = _
    rw [hr]
    show ((h.ctx.sequence_number + 1) % 4294967296 + n) % 4294967296 = _
    omega

lemma compute_nonce_ok (h : Hpke) (seq : Nat) (hnn : 4 ≤ h.nn) :
    h.compute_nonce seq = Except.ok
      (xor_bytes (List.replicate (h.nn - 4) 0 ++ u32_to_be_bytes seq) h.ctx.nonce) := by
  unfold Hpke.compute_nonce
  rw [if_neg (by omega)]

lemma key_schedule_ok_inv (h0 h : Hpke) (zz info psk psk_id : List Nat)
    (hks : h0.key_schedule zz info psk psk_id = Except.ok h) :
    h.aead = h0.aead ∧ h.nn = h0.nn ∧ h.ctx.sequence_number = 0 := by
  unfold Hpke.key_schedule at hks
  cases hv : h0.verify_psk_inputs psk psk_id with
  | error e => rw [hv] at hks; cases hks
  | ok u =>
    rw [hv] at hks
    have := Except.ok.inj hks
    subst this
    exact ⟨rfl, rfl, rfl⟩

lemma seal_open_roundtrip : ∀ (msgs : List (List Nat × List Nat)) (h : Hpke),
    4 ≤ h.nn →
    (∀ k n a p, h.aead.open_ k n a (h.aead.seal k n a p) = some p) →
    ∃ cts : List (List Nat),
      h.seal_all msgs = Except.ok (cts, h.advance msgs.length) ∧
      h.open_all (List.zipWith (fun m c => (m.1, c)) msgs cts) =
        Except.ok (msgs.map Prod.snd, h.advance msgs.length) := by
  intro msgs
  induction msgs with
  | nil => intro h _ _; exact ⟨[], rfl, rfl⟩
  | cons m rest ih =>
    intro h hnn hrt
    obtain ⟨a, p⟩ := m
    obtain ⟨cts, hs, ho⟩ := ih h.increment_seq hnn hrt
    have hseal : h.seal a p = Except.ok
        (h.aead.seal h.ctx.key (xor_bytes (List.replicate (h.nn - 4) 0 ++
          u32_to_be_bytes h.ctx.sequence_number) h.ctx.nonce) a p, h.increment_seq) := by
      unfold Hpke.seal
      rw [compute_nonce_ok h h.ctx.sequence_number hnn]
    have hopen : h.open_ a (h.aead.seal h.ctx.key
        (xor_bytes (List.replicate (h.nn - 4) 0 ++
          u32_to_be_bytes h.ctx.sequence_number) h.ctx.nonce) a p) =
        Except.ok (p, h.increment_seq) := by
      simp only [Hpke.open_, compute_nonce_ok h h.ctx.sequence_number hnn, hrt]
    refine ⟨h.aead.seal h.ctx.key (xor_bytes (List.replicate (h.nn - 4) 0 ++
      u32_to_be_bytes h.ctx.sequence_number) h.ctx.nonce) a p :: cts, ?_, ?_⟩
    · simp only [Hpke.seal_all, hseal, hs]
      rfl
    · simp only [List.zipWith, Hpke.open_all, hopen, ho, List.map]
      rfl

/-! ### Concrete collaborator instances used for evaluations -/

/-- A trivial KDF collaborator for concrete evaluations: extraction
returns the empty string, expansion returns `length` zero bytes,
`nh = 32`. -/
def trivKdf : Kdf :=
  ⟨fun _ _ _ => [], fun _ _ _ n => List.replicate n 0, 32⟩

/-- A trivial AEAD collaborator for concrete evaluations: sealing is
the identity on the plaintext and opening always authenticates;
`nk = 16`, `nn = 12`. -/
def trivAead : Aead :=
  ⟨fun _ _ _ pt => pt, fun _ _ _ ct => some ct, 16, 12⟩

/-- A degenerate AEAD collaborator whose nonce width is `3 < 4`. -/
def narrowAead : Aead :=
  ⟨fun _ _ _ pt => pt, fun _ _ _ ct => some ct, 16, 3⟩

/-- A freshly constructed instance with the trivial collaborators. -/
def hpke0 : Hpke := Hpke.new Mode.Base 32 1 1 trivKdf trivAead

/-- An instance whose `u32` counter sits at its maximum value
`4294967295 = 2 ^ 32 - 1`. -/
def hpkeMaxSeq : Hpke :=
  { hpke0 with ctx := ⟨[], List.replicate 12 0, [], 4294967295⟩ }

/-- A second copy of the maximal-counter instance, for a separate
concrete evaluation. -/
def hpkeMaxSeqB : Hpke :=
  { hpke0 with ctx := ⟨[], List.replicate 12 0, [], 4294967295⟩ }

/-- An instance with a non-trivial stored nonce base of width 12. -/
def hpkeNonceBase : Hpke :=
  { hpke0 with ctx := ⟨[], List.replicate 12 5, [], 0⟩ }

/-- A freshly constructed instance with the degenerate 3-byte-nonce
AEAD. -/
def hpkeNarrow : Hpke := Hpke.new Mode.Base 32 1 1 trivKdf narrowAead

/-- The context the trivial collaborators derive through
`key_schedule` in Base mode with empty inputs. -/
def hpkeDerived : Hpke :=
  { hpke0 with ctx := ⟨List.replicate 16 0, List.replicate 12 0,
      List.replicate 32 0, 0⟩ }

lemma hpkeDerived_eq : hpke0.key_schedule [] [] [] [] = Except.ok hpkeDerived := rfl

lemma triv_seal_all : ∀ (n : Nat) (h : Hpke), h.nn = 12 → h.aead = trivAead →
    h.seal_all (List.replicate n ([], [])) =
      Except.ok (List.replicate n [], h.advance n) := by
  intro n
  induction n with
  | zero => intro h _ _; rfl
  | succ n ih =>
    intro h hnn ha
    have hseal : h.seal [] [] = Except.ok ([], h.increment_seq) := by
      simp only [Hpke.seal, compute_nonce_ok h h.ctx.sequence_number (by omega), ha, trivAead]
    have hrest := ih h.increment_seq hnn ha
    simp only [List.replicate, Hpke.seal_all, hseal, hrest]
    rfl

/-- An instance with algorithm identifiers differing from `hpke0`. -/
def hpkeAlt : Hpke := Hpke.new Mode.Base 33 2 3 trivKdf trivAead

/-! ### The claims -/

/-- C3: `verify_psk_inputs` accepts exactly when both `psk` and
`psk_id` are non-empty and the mode is `Psk` or `AuthPsk`, or both are
empty and the mode is `Base` or `Auth`; every other combination fails
with `ConfigurationError`.  The check is pure: it returns no state, so
nothing is mutated. -/
theorem C3_verify_psk_inputs (h : Hpke) (psk psk_id : List Nat) :
    (h.verify_psk_inputs psk psk_id = Except.ok () ↔
      ((psk ≠ [] ∧ psk_id ≠ [] ∧ (h.mode = Mode.Psk ∨ h.mode = Mode.AuthPsk)) ∨
       (psk = [] ∧ psk_id = [] ∧ (h.mode = Mode.Base ∨ h.mode = Mode.Auth)))) ∧
    (h.verify_psk_inputs psk psk_id = Except.ok () ∨
     h.verify_psk_inputs psk psk_id = Except.error HpkeError.ConfigurationError) := by
  constructor
  · unfold Hpke.verify_psk_inputs
    cases hm : h.mode <;> cases psk <;> cases psk_id <;> simp [hm]
  · unfold Hpke.verify_psk_inputs
    cases hm : h.mode <;> cases psk <;> cases psk_id <;> simp

/-- C3 witness: a concrete accepted configuration (`Base` mode, both
PSK inputs empty), through `C3_verify_psk_inputs`. -/
theorem C3_verify_psk_inputs_witness :
    hpke0.verify_psk_inputs [] [] = Except.ok () :=
  (C3_verify_psk_inputs hpke0 [] []).1.mpr (Or.inr ⟨rfl, rfl, Or.inl rfl⟩)

/-- C7: `get_secret` substitutes `nh` zero bytes for an empty PSK,
hashes the result with an `nh`-zero-byte salt under label "psk_hash",
and extracts the secret from `zz` with that hash as salt; hence the
empty PSK and the PSK of `nh` zero bytes yield the same secret. -/
theorem C7_get_secret (h : Hpke) (psk zz : List Nat) :
    h.get_secret psk zz =
      h.kdf.labeled_extract
        (h.kdf.labeled_extract (List.replicate h.kdf.nh 0) "psk_hash"
          (if psk = [] then List.replicate h.kdf.nh 0 else psk))
        "secret" zz ∧
    h.get_secret [] zz = h.get_secret (List.replicate h.kdf.nh 0) zz := by
  constructor
  · unfold Hpke.get_secret
    simp [List.isEmpty_iff]
  · unfold Hpke.get_secret
    cases hnh : h.kdf.nh with
    | zero => simp
    | succ k => simp [List.replicate]

/-- C8: `get_ciphersuite` is the 6-byte concatenation of the
big-endian 16-bit KEM, KDF and AEAD identifiers, and the encoding is
injective over 16-bit identifier triples. -/
theorem C8_get_ciphersuite (h1 h2 : Hpke)
    (hk1 : h1.kem_id < 65536) (hd1 : h1.kdf_id < 65536) (ha1 : h1.aead_id < 65536)
    (hk2 : h2.kem_id < 65536) (hd2 : h2.kdf_id < 65536) (ha2 : h2.aead_id < 65536) :
    h1.get_ciphersuite.length = 6 ∧
    h1.get_ciphersuite =
      u16_to_be_bytes h1.kem_id ++ u16_to_be_bytes h1.kdf_id ++
        u16_to_be_bytes h1.aead_id ∧
    (h1.get_ciphersuite = h2.get_ciphersuite ↔
      (h1.kem_id = h2.kem_id ∧ h1.kdf_id = h2.kdf_id ∧ h1.aead_id = h2.aead_id)) := by
  refine ⟨rfl, rfl, ?_⟩
  unfold Hpke.get_ciphersuite u16_to_be_bytes
  simp only [List.cons_append, List.nil_append, List.cons.injEq, and_true]
  omega

/-- C8 witness: the tag is 6 bytes long and two instances with
different identifiers receive different tags, through
`C8_get_ciphersuite`. -/
theorem C8_get_ciphersuite_witness :
    hpke0.get_ciphersuite.length = 6 ∧
    hpke0.get_ciphersuite ≠ hpkeAlt.get_ciphersuite := by
  have hmain := C8_get_ciphersuite hpke0 hpkeAlt (by decide) (by decide) (by decide)
    (by decide) (by decide) (by decide)
  exact ⟨hmain.1, fun he => absurd (hmain.2.2.mp he).1 (by decide)⟩

/-- C9: `compute_nonce` is defined only for nonce widths `nn ≥ 4`: the
counter field is a fixed four-byte big-endian `u32` encoding prefixed
by `nn - 4` zero bytes; for `nn < 4` the padding-length subtraction
underflows and the operation aborts; the encoding depends only on the
counter modulo `2 ^ 32`; and the incremented counter always stays
below `2 ^ 32`, so no sequence number of `2 ^ 32` or above is ever
reached. -/
theorem C9_compute_nonce_domain (h : Hpke) (seq : Nat) :
    (h.nn < 4 → h.compute_nonce seq = Except.error HpkeError.ArithmeticOverflow) ∧
    (4 ≤ h.nn → h.compute_nonce seq = Except.ok
      (xor_bytes (List.replicate (h.nn - 4) 0 ++ u32_to_be_bytes seq) h.ctx.nonce)) ∧
    (u32_to_be_bytes seq).length = 4 ∧
    u32_to_be_bytes seq = u32_to_be_bytes (seq % 4294967296) ∧
    h.increment_seq.ctx.sequence_number < 4294967296 := by
  refine ⟨fun hlt => ?_, fun hge => compute_nonce_ok h seq hge, rfl, ?_, ?_⟩
  · unfold Hpke.compute_nonce
    rw [if_pos hlt]
  · simp only [u32_to_be_bytes, List.cons.injEq, and_true]
    omega
  · show (h.ctx.sequence_number + 1) % 4294967296 < 4294967296
    omega

/-- C9 witness: the 3-byte-nonce instance aborts; a 12-byte-nonce
instance computes the padded four-byte encoding, both through
`C9_compute_nonce_domain`. -/
theorem C9_compute_nonce_domain_witness :
    hpkeNarrow.compute_nonce 0 = Except.error HpkeError.ArithmeticOverflow ∧
    hpkeNonceBase.compute_nonce 0 = Except.ok
      (xor_bytes (List.replicate (hpkeNonceBase.nn - 4) 0 ++ u32_to_be_bytes 0)
        hpkeNonceBase.ctx.nonce) :=
  ⟨(C9_compute_nonce_domain hpkeNarrow 0).1 (by decide),
   (C9_compute_nonce_domain hpkeNonceBase 0).2.1 (by decide)⟩

/-- C2: for a stored nonce base of width `nn ≥ 4` and any
`N ≤ 2 ^ (8 * nn)`, `compute_nonce` applied to sequence numbers below
`N` (each a value of the `u32` counter type, hence below `2 ^ 32`)
yields the big-endian, left-zero-padded `nn`-byte encoding of the
sequence number XORed with the stored nonce base, and is injective on
those sequence numbers, so the nonces are pairwise distinct. -/
theorem C2_nonce_uniqueness (h : Hpke) (N i j : Nat)
    (hlen : h.ctx.nonce.length = h.nn) (hnn : 4 ≤ h.nn)
    (hN : N ≤ 2 ^ (8 * h.nn)) (hiN : i < N) (hjN : j < N)
    (hi : i < 4294967296) (hj : j < 4294967296) :
    h.compute_nonce i = Except.ok (xor_bytes (nat_to_be_bytes h.nn i) h.ctx.nonce) ∧
    (h.compute_nonce i = h.compute_nonce j → i = j) := by
  have henc : ∀ s, s < 4294967296 →
      List.replicate (h.nn - 4) 0 ++ u32_to_be_bytes s = nat_to_be_bytes h.nn s := by
    intro s hs
    obtain ⟨m, hm⟩ : ∃ m, h.nn = 4 + m := ⟨h.nn - 4, by omega⟩
    rw [hm, Nat.add_sub_cancel_left, nat_to_be_bytes_pad m s hs, nat_to_be_bytes_four]
  constructor
  · rw [compute_nonce_ok h i hnn, henc i hi]
  · intro heq
    rw [compute_nonce_ok h i hnn, compute_nonce_ok h j hnn,
      henc i hi, henc j hj] at heq
    have hxi := xor_bytes_cancel (nat_to_be_bytes h.nn i) h.ctx.nonce
      (by rw [nat_to_be_bytes_length, hlen])
    have hxj := xor_bytes_cancel (nat_to_be_bytes h.nn j) h.ctx.nonce
      (by rw [nat_to_be_bytes_length, hlen])
    have hencEq : nat_to_be_bytes h.nn i = nat_to_be_bytes h.nn j := by
      rw [← hxi, ← hxj, Except.ok.inj heq]
    obtain ⟨m, hm⟩ : ∃ m, h.nn = 4 + m := ⟨h.nn - 4, by omega⟩
    rw [hm, nat_to_be_bytes_pad m i hi, nat_to_be_bytes_pad m j hj,
      nat_to_be_bytes_four, nat_to_be_bytes_four] at hencEq
    exact u32_to_be_bytes_inj i j hi hj (List.append_cancel_left hencEq)

/-- C2 witness: on a concrete 12-byte nonce base, `compute_nonce 0` is
the padded encoding XORed with the base, and the nonces for sequence
numbers 1 and 0 differ, both through `C2_nonce_uniqueness`. -/
theorem C2_nonce_uniqueness_witness :
    hpkeNonceBase.compute_nonce 0 =
      Except.ok (xor_bytes (nat_to_be_bytes 12 0) hpkeNonceBase.ctx.nonce) ∧
    hpkeNonceBase.compute_nonce 1 ≠ hpkeNonceBase.compute_nonce 0 := by
  constructor
  · exact (C2_nonce_uniqueness hpkeNonceBase 2 0 1 (by decide) (by decide)
      (by decide) (by decide) (by decide) (by decide) (by decide)).1
  · intro heq
    exact absurd ((C2_nonce_uniqueness hpkeNonceBase 2 1 0 (by decide) (by decide)
      (by decide) (by decide) (by decide) (by decide) (by decide)).2 heq)
      (by decide)

lemma seal_eq (h : Hpke) (aad pt nonce : List Nat)
    (hn : h.compute_nonce h.ctx.sequence_number = Except.ok nonce) :
    h.seal aad pt = Except.ok (h.aead.seal h.ctx.key nonce aad pt, h.increment_seq) := by
  simp only [Hpke.seal, hn]

lemma open_cases (h : Hpke) (aad ct nonce : List Nat)
    (hn : h.compute_nonce h.ctx.sequence_number = Except.ok nonce) :
    (∀ pt, h.aead.open_ h.ctx.key nonce aad ct = some pt →
      h.open_ aad ct = Except.ok (pt, h.increment_seq)) ∧
    (h.aead.open_ h.ctx.key nonce aad ct = none →
      h.open_ aad ct = Except.error HpkeError.AuthenticationError) := by
  constructor
  · intro pt hsome
    simp only [Hpke.open_, hn, hsome]
  · intro hnone
    simp only [Hpke.open_, hn, hnone]

/-- C4: when PSK validation passes, `key_schedule` installs exactly the
context whose key, nonce base and exporter secret are the labeled
expansions of the schedule secret under labels "key", "nonce" and
"exp" at widths `nk`, `nn` and `nh` over the schedule context string,
with sequence number `0`; the result is independent of the previously
held context, which is replaced wholesale. -/
theorem C4_key_schedule (h : Hpke) (zz info psk psk_id : List Nat)
    (hv : h.verify_psk_inputs psk psk_id = Except.ok ()) :
    h.key_schedule zz info psk psk_id = Except.ok { h with ctx :=
      ⟨h.kdf.labeled_expand (h.get_secret psk zz) "key"
          (h.get_key_schedule_context info psk_id) h.nk,
        h.kdf.labeled_expand (h.get_secret psk zz) "nonce"
          (h.get_key_schedule_context info psk_id) h.nn,
        h.kdf.labeled_expand (h.get_secret psk zz) "exp"
          (h.get_key_schedule_context info psk_id) h.nh,
        0⟩ } ∧
    (∀ c : Context, Hpke.key_schedule { h with ctx := c } zz info psk psk_id =
      h.key_schedule zz info psk psk_id) := by
  constructor
  · simp only [Hpke.key_schedule, hv]
  · intro c
    rfl

/-- C4 witness: the trivial instance in Base mode with empty inputs,
through `C4_key_schedule`. -/
theorem C4_key_schedule_witness :
    hpke0.key_schedule [] [] [] [] = Except.ok { hpke0 with ctx :=
      ⟨hpke0.kdf.labeled_expand (hpke0.get_secret [] []) "key"
          (hpke0.get_key_schedule_context [] []) hpke0.nk,
        hpke0.kdf.labeled_expand (hpke0.get_secret [] []) "nonce"
          (hpke0.get_key_schedule_context [] []) hpke0.nn,
        hpke0.kdf.labeled_expand (hpke0.get_secret [] []) "exp"
          (hpke0.get_key_schedule_context [] []) hpke0.nh,
        0⟩ } :=
  (C4_key_schedule hpke0 [] [] [] [] rfl).1

/-- C10: `seal` and `open` perform no configuration check: a freshly
constructed instance holds the default context (empty key, empty nonce
base, sequence number 0), `seal` proceeds on it and returns the AEAD
output under the empty key and the empty masked nonce, and `open`
either succeeds or fails with `AuthenticationError` exactly as the
AEAD decides — no unconfigured-state error is ever signalled. -/
theorem C10_no_state_check (mode : Mode) (kem_id kdf_id aead_id : Nat)
    (kdf : Kdf) (aead : Aead) (aad pt ct : List Nat) (hnn : 4 ≤ aead.nn) :
    (Hpke.new mode kem_id kdf_id aead_id kdf aead).ctx = Context.default ∧
    (Hpke.new mode kem_id kdf_id aead_id kdf aead).seal aad pt =
      Except.ok (aead.seal [] [] aad pt,
        (Hpke.new mode kem_id kdf_id aead_id kdf aead).increment_seq) ∧
    (∀ pt', aead.open_ [] [] aad ct = some pt' →
      (Hpke.new mode kem_id kdf_id aead_id kdf aead).open_ aad ct =
        Except.ok (pt', (Hpke.new mode kem_id kdf_id aead_id kdf aead).increment_seq)) ∧
    (aead.open_ [] [] aad ct = none →
      (Hpke.new mode kem_id kdf_id aead_id kdf aead).open_ aad ct =
        Except.error HpkeError.AuthenticationError) := by
  have hnonce : (Hpke.new mode kem_id kdf_id aead_id kdf aead).compute_nonce
      (Hpke.new mode kem_id kdf_id aead_id kdf aead).ctx.sequence_number =
      Except.ok [] := by
    rw [compute_nonce_ok _ _ hnn]
    congr 1
    simp [xor_bytes, Hpke.new, Context.default]
  refine ⟨rfl, ?_, fun pt' hopen => ?_, fun hfail => ?_⟩
  · rw [seal_eq _ aad pt [] hnonce]
    rfl
  · exact (open_cases _ aad ct [] hnonce).1 pt' hopen
  · exact (open_cases _ aad ct [] hnonce).2 hfail

/-- C10 witness: on the freshly constructed trivial instance, `seal`
returns the AEAD output and `open` succeeds, with no
unconfigured-state error, through `C10_no_state_check`. -/
theorem C10_no_state_check_witness :
    hpke0.ctx = Context.default ∧
    hpke0.seal [3] [4] = Except.ok ([4], hpke0.increment_seq) := by
  have hmain := C10_no_state_check Mode.Base 32 1 1 trivKdf trivAead [3] [4] [9]
    (by decide)
  exact ⟨hmain.1, hmain.2.1⟩

/-- C6 counterexample: on an authenticated `open` at the maximal `u32`
counter value `4294967295`, the code leaves the counter at `0`, not at
`4294967295 + 1`: the update is not an increment by exactly 1 there. -/
theorem C6_open_counterexample :
    (hpkeMaxSeq.open_ [] [7]).map (fun p => p.2.ctx.sequence_number) =
      Except.ok 0 ∧
    hpkeMaxSeq.ctx.sequence_number = 4294967295 ∧
    (0 : Nat) ≠ 4294967295 + 1 :=
  ⟨rfl, rfl, by decide⟩

/-- C6 (amended): `open` uses the nonce computed from the current
sequence number; when the AEAD authenticates, it returns the plaintext
and sets the counter to (seq + 1) mod 2^32 — an increment by exactly 1
except at the maximal `u32` value 4294967295, where the counter wraps
to 0; when authentication fails it signals `AuthenticationError` and
yields no successor state, so no sequence number is consumed. -/
theorem C6_open_behavior (h : Hpke) (aad ct nonce : List Nat)
    (hn : h.compute_nonce h.ctx.sequence_number = Except.ok nonce) :
    (∀ pt, h.aead.open_ h.ctx.key nonce aad ct = some pt →
      h.open_ aad ct = Except.ok (pt, h.increment_seq) ∧
      h.increment_seq.ctx.sequence_number =
        (h.ctx.sequence_number + 1) % 4294967296) ∧
    (h.aead.open_ h.ctx.key nonce aad ct = none →
      h.open_ aad ct = Except.error HpkeError.AuthenticationError) :=
  ⟨fun pt hsome => ⟨(open_cases h aad ct nonce hn).1 pt hsome, rfl⟩,
   (open_cases h aad ct nonce hn).2⟩

/-- C6 witness: a successful open on the trivial derived context at
sequence number 0 returns the plaintext and advances the counter to 1,
through `C6_open_behavior`. -/
theorem C6_open_behavior_witness :
    hpkeDerived.open_ [] [8] = Except.ok ([8], hpkeDerived.increment_seq) ∧
    hpkeDerived.increment_seq.ctx.sequence_number = 1 :=
  ((C6_open_behavior hpkeDerived [] [8]
      (xor_bytes (List.replicate (hpkeDerived.nn - 4) 0 ++ u32_to_be_bytes
        hpkeDerived.ctx.sequence_number) hpkeDerived.ctx.nonce)
      (compute_nonce_ok hpkeDerived hpkeDerived.ctx.sequence_number (by decide))).1
    [8] rfl)

/-- C1 fails on the code: there is no sequence-exhaustion check — the
increment is a bare `u32` addition and `SequenceExhausted` is signalled
nowhere.  At the maximal counter value `4294967295` (with `nn = 12`),
`seal` succeeds and the counter wraps to the previously used value
`0`. -/
theorem C1_seal_wraps_without_exhaustion :
    (hpkeMaxSeqB.seal [] [42]).map (fun p => p.2.ctx.sequence_number) =
      Except.ok 0 ∧
    hpkeMaxSeqB.ctx.sequence_number = 4294967295 ∧
    hpkeMaxSeqB.nn = 12 :=
  ⟨rfl, rfl, rfl⟩

/-- C5 counterexample: sealing `2 ^ 32` messages on the concretely
derived context leaves the sequence counter at `0`, not at the
operation count `4294967296`: the `u32` counter wraps. -/
theorem C5_counter_wraps :
    hpkeDerived.seal_all (List.replicate 4294967296 ([], [])) =
      Except.ok (List.replicate 4294967296 [], hpkeDerived.advance 4294967296) ∧
    (hpkeDerived.advance 4294967296).ctx.sequence_number = 0 ∧
    (0 : Nat) ≠ 4294967296 := by
  refine ⟨triv_seal_all 4294967296 hpkeDerived rfl rfl, ?_, by decide⟩
  rw [advance_seq 4294967296 hpkeDerived (by decide)]
  show (0 + 4294967296) % 4294967296 = 0
  decide

/-- C5 (amended): for any context derived by a successful key schedule
on an AEAD whose open inverts its seal (nonce width at least 4),
sealing a list of (aad, plaintext) pairs in order and then opening the
resulting ciphertexts in the same order with matching aad on the same
derived context recovers every plaintext exactly, and after N
operations the sequence counter equals N mod 2^32 — N itself whenever
N < 2^32; for longer runs the `u32` counter wraps. -/
theorem C5_roundtrip (h0 h : Hpke) (zz info psk psk_id : List Nat)
    (msgs : List (List Nat × List Nat))
    (hks : h0.key_schedule zz info psk psk_id = Except.ok h)
    (hrt : ∀ k n a p, h0.aead.open_ k n a (h0.aead.seal k n a p) = some p)
    (hnn : 4 ≤ h0.nn) :
    ∃ cts : List (List Nat),
      h.seal_all msgs = Except.ok (cts, h.advance msgs.length) ∧
      h.open_all (List.zipWith (fun m c => (m.1, c)) msgs cts) =
        Except.ok (msgs.map Prod.snd, h.advance msgs.length) ∧
      (h.advance msgs.length).ctx.sequence_number = msgs.length % 4294967296 := by
  obtain ⟨ha, hn, hs0⟩ := key_schedule_ok_inv h0 h zz info psk psk_id hks
  obtain ⟨cts, h1, h2⟩ := seal_open_roundtrip msgs h (by omega)
    (by rw [ha]; exact hrt)
  refine ⟨cts, h1, h2, ?_⟩
  rw [advance_seq msgs.length h (by omega), hs0]
  omega

/-- C5 witness: one message on the concretely derived trivial context,
through `C5_roundtrip`. -/
theorem C5_roundtrip_witness :
    ∃ cts : List (List Nat),
      hpkeDerived.seal_all [([1], [2])] =
        Except.ok (cts, hpkeDerived.advance 1) ∧
      hpkeDerived.open_all (List.zipWith (fun m c => (m.1, c)) [([1], [2])] cts) =
        Except.ok ([[2]], hpkeDerived.advance 1) ∧
      (hpkeDerived.advance 1).ctx.sequence_number = 1 % 4294967296 :=
  C5_roundtrip hpke0 hpkeDerived [] [] [] [] [([1], [2])] hpkeDerived_eq
    (fun _ _ _ _ => rfl) (by decide)
